import Mathlib

/-!
# Verification of the curlex test-execution engine

A shallow embedding of the curlex core (retry policy, sequential runner,
parallel worker pipeline, assertion engine and its validators), translated
from the Go sources, together with theorems settling the specification
claims.

Modelling conventions:
* Go `time.Duration` (int64 nanoseconds) and Go `int` are carried as `Int`,
  with the arithmetic that can overflow in the source — the shift and the
  duration multiplication of `calculateDelay` — wrapped explicitly to
  64-bit two's-complement via `toInt64` (`% 2^64`, reinterpreted signed);
  quantities the source only compares or counts are not subject to
  overflow and stay plain.
* Go `float64` values that appear only in assertion-value comparisons are
  modelled as exact rationals (`Rat`); IEEE rounding is out of scope and no
  claim depends on it.
* The HTTP transport (`net/http`), the curl-command parser and context
  cancellation are external collaborators; they are modelled as oracles
  supplied to the engine (`World`), exactly as the spec treats them.
* The third-party `gjson` library is modelled for the plain dot-separated
  paths the engine uses: a JSON parser plus key/index navigation, where a
  path bound to JSON `null` exists (`gjson.Result.Exists()` is true for
  null values found in the document).
* Go map iteration order (header lookup) is resolved to list order.
* `strings.EqualFold`, `strings.TrimSpace` and `%q` formatting are modelled
  for ASCII data.
-/

set_option autoImplicit false

namespace Curlex

/-! ## Go string primitives (strings / strconv / regexp fragments) -/

/-- The white-space class of Go `unicode.IsSpace` restricted to ASCII
(plus NEL/NBSP), as used by `strings.TrimSpace`. -/
def isGoSpace (c : Char) : Bool :=
  c = ' ' || c = '\t' || c = '\n' || c = '\x0b' || c = '\x0c' || c = '\r' ||
  c = '\x85' || c = '\xa0'

/-- The RE2 character class `\s` = `[\t\n\f\r ]` used by the status-code
regular expressions. -/
def isReSpace (c : Char) : Bool :=
  c = '\t' || c = '\n' || c = '\x0c' || c = '\r' || c = ' '

/-- `strings.TrimSpace`. -/
def trimSpace (s : String) : String :=
  ⟨((s.toList.dropWhile isGoSpace).reverse.dropWhile isGoSpace).reverse⟩

/-- `strings.Trim(s, cutset)`: remove any run of cutset characters from both
ends. -/
def goTrim (s : String) (cutset : List Char) : String :=
  ⟨((s.toList.dropWhile (cutset.contains ·)).reverse.dropWhile
      (cutset.contains ·)).reverse⟩

/-- Index of the first occurrence of `pat` in `s` (`strings.Index`),
on character lists. -/
def firstIdxOf (pat : List Char) : List Char → Option Nat
  | [] => if pat.isEmpty then some 0 else none
  | c :: rest =>
    if pat.isPrefixOf (c :: rest) then some 0
    else (firstIdxOf pat rest).map (· + 1)

/-- `strings.Contains`. -/
def containsSub (s pat : String) : Bool :=
  (firstIdxOf pat.toList s.toList).isSome

/-- `strings.HasPrefix`. -/
def hasPre (s pat : String) : Bool :=
  pat.toList.isPrefixOf s.toList

/-- Worker for `strings.Split`: split on each non-overlapping occurrence of
`sep`, left to right.  `fuel` bounds recursion; callers pass
`s.length + 1`, which is ample since each step consumes at least one
character of a non-empty separator occurrence. -/
def splitSubAux (sep : List Char) : Nat → List Char → List (List Char)
  | 0, s => [s]
  | fuel + 1, s =>
    match firstIdxOf sep s with
    | none => [s]
    | some i => s.take i :: splitSubAux sep fuel (s.drop (i + sep.length))

/-- `strings.Split` (for a non-empty separator). -/
def splitSub (s sep : String) : List String :=
  (splitSubAux sep.toList (s.toList.length + 1) s.toList).map String.mk

/-- Worker for `strings.ReplaceAll` (non-empty `old`). -/
def replaceAllAux (old new : List Char) : Nat → List Char → List Char
  | 0, s => s
  | fuel + 1, s =>
    match firstIdxOf old s with
    | none => s
    | some i =>
      s.take i ++ new ++ replaceAllAux old new fuel (s.drop (i + old.length))

/-- `strings.ReplaceAll` (for a non-empty pattern). -/
def replaceAll (s old new : String) : String :=
  ⟨replaceAllAux old.toList new.toList (s.toList.length + 1) s.toList⟩

/-- ASCII lower-casing, for `strings.ToLower` / `strings.EqualFold` on the
ASCII data the engine compares. -/
def asciiLowerChar (c : Char) : Char :=
  if 'A' ≤ c ∧ c ≤ 'Z' then Char.ofNat (c.toNat + 32) else c

/-- `strings.ToLower` (ASCII). -/
def toLowerStr (s : String) : String := ⟨s.toList.map asciiLowerChar⟩

/-- `strings.EqualFold` (ASCII). -/
def eqFold (a b : String) : Bool := toLowerStr a = toLowerStr b

/-- Value of a non-empty digit string. -/
def natOfDigits (ds : List Char) : Nat :=
  ds.foldl (fun n c => n * 10 + (c.toNat - '0'.toNat)) 0

/-- Largest Go `int` (64-bit). -/
def maxInt64 : Int := 9223372036854775807

/-- Smallest Go `int` (64-bit). -/
def minInt64 : Int := -9223372036854775808

/-- `strconv.Atoi`: optional sign, at least one digit, nothing else, and the
value must fit in a 64-bit int (out-of-range input yields an error, hence
`none`). -/
def goAtoi (s : String) : Option Int :=
  let cs := s.toList
  let (neg, body) :=
    match cs with
    | '+' :: rest => (false, rest)
    | '-' :: rest => (true, rest)
    | rest => (false, rest)
  if body.isEmpty ∨ ¬ body.all (·.isDigit) then none
  else
    let v : Int := if neg then -(natOfDigits body : Int) else (natOfDigits body : Int)
    if minInt64 ≤ v ∧ v ≤ maxInt64 then some v else none

/-- `strconv.Atoi` applied to a pure digit capture with the error ignored
(`right, _ := strconv.Atoi(…)`): an overflowing value is clamped to the
int64 maximum, as `ParseInt` returns the range limit on `ErrRange`. -/
def atoiDigitsClamped (ds : List Char) : Int :=
  min (natOfDigits ds : Int) maxInt64

/-! ## Durations -/

/-- Go `time.Duration`: nanoseconds. -/
abbrev Duration := Int

/-- `time.Second` in nanoseconds. -/
def second : Duration := 1000000000

/-- `time.Millisecond` in nanoseconds. -/
def millisecond : Duration := 1000000

/-- `time.Minute` in nanoseconds. -/
def minuteDur : Duration := 60 * second

/-- `time.Hour` in nanoseconds. -/
def hourDur : Duration := 60 * minuteDur

/-! ## Data model (`internal/models`) -/

/-- `models.Assertion`: a type tag and an expression string.
`AssertionType` is a string type in the source. -/
structure Assertion where
  type : String
  value : String
deriving Repr, DecidableEq, Inhabited

/-- `models.StructuredRequest`. -/
structure StructuredRequest where
  method : String
  url : String
  headers : List (String × String)
  body : String
deriving Repr, DecidableEq, Inhabited

/-- `models.PreparedRequest`. -/
structure PreparedRequest where
  method : String
  url : String
  headers : List (String × String)
  body : String
deriving Repr, DecidableEq, Inhabited

/-- `models.Test` (the fields the execution core reads). -/
structure Test where
  name : String := ""
  curl : String := ""
  request : Option StructuredRequest := none
  assertions : List Assertion := []
  retries : Int := 0
  retryDelay : Duration := 0
  retryBackoff : String := ""
  retryOnStatus : List Int := []
deriving Repr, DecidableEq, Inhabited

/-- `models.AssertionFailure`. -/
structure AssertionFailure where
  type : String := ""
  expected : String := ""
  actual : String := ""
  message : String := ""
deriving Repr, DecidableEq, Inhabited

/-- `models.TestResult`.  Execution errors are modelled by their message
string.  Headers are multi-valued. -/
structure TestResult where
  test : Test
  success : Bool := false
  statusCode : Int := 0
  responseTime : Duration := 0
  responseBody : String := ""
  headers : List (String × List String) := []
  failures : List AssertionFailure := []
  error : Option String := none
  preparedRequest : Option PreparedRequest := none
deriving Repr, DecidableEq, Inhabited

/-- `models.SuiteResult` (wall-clock timestamps are external and omitted). -/
structure SuiteResult where
  results : List TestResult
  totalTests : Nat
  passedTests : Nat
  failedTests : Nat
deriving Repr, DecidableEq, Inhabited

/-! ## Retry policy (`internal/executor/retry.go`) -/

/-- `executor.shouldRetry`: with no configured status codes the answer is
`false`; otherwise membership in the retry list. -/
def shouldRetry (statusCode : Int) (retryOnStatus : List Int) : Bool :=
  if retryOnStatus.length = 0 then false
  else retryOnStatus.any (fun code => statusCode = code)

/-- Reinterpret an integer modulo `2^64` as a signed 64-bit value, the
wrap-around of Go's `int`/`time.Duration` arithmetic. -/
def toInt64 (n : Int) : Int :=
  let m := n % 18446744073709551616
  if m ≥ 9223372036854775808 then m - 18446744073709551616 else m

/-- 64-bit product with Go's two's-complement wrap-around. -/
def wrapMul64 (x y : Int) : Int := toInt64 (x * y)

/-- `executor.calculateDelay`: `initialDelay` defaults to one second when
zero; `exponential` (and any unrecognised backoff type) multiplies by
`1 << uint(attempt)`, `linear` multiplies by `attempt+1`.  Both the shift
and the duration multiplication are 64-bit and wrap: `1 << a` is
`toInt64 (2^a)` (negative at `a = 63`, zero from `a = 64` on, exactly as a
Go shift of an `int` by an over-wide unsigned count), and the product is
taken by `wrapMul64`. -/
def calculateDelay (attempt : Nat) (initialDelay : Duration)
    (backoffType : String) : Duration :=
  let initialDelay := if initialDelay = 0 then second else initialDelay
  match backoffType with
  | "exponential" => wrapMul64 initialDelay (toInt64 (2 ^ attempt))
  | "linear" => wrapMul64 initialDelay (toInt64 ((attempt : Int) + 1))
  | _ => wrapMul64 initialDelay (toInt64 (2 ^ attempt))

/-! ## Status validator (`StatusValidator`) -/

/-- Regex fragment `^\s*OP\s*(\d+)` with the error of the subsequent `Atoi`
ignored: skip `\s`, match the operator literally, skip `\s`, then capture a
non-empty maximal digit run. -/
def matchAnchoredOp (op : List Char) (s : List Char) : Option Int :=
  let s1 := s.dropWhile isReSpace
  if op.isPrefixOf s1 then
    let s2 := (s1.drop op.length).dropWhile isReSpace
    let ds := s2.takeWhile (·.isDigit)
    if ds.isEmpty then none else some (atoiDigitsClamped ds)
  else none

/-- One attempted match of `(\d+)\s*OP\s*(\d+)` at the head of `s`. -/
def matchNumOpHere (op : List Char) (s : List Char) : Option (Int × Int) :=
  let d1 := s.takeWhile (·.isDigit)
  if d1.isEmpty then none
  else
    let s1 := (s.drop d1.length).dropWhile isReSpace
    if op.isPrefixOf s1 then
      let s2 := (s1.drop op.length).dropWhile isReSpace
      let d2 := s2.takeWhile (·.isDigit)
      if d2.isEmpty then none
      else some (atoiDigitsClamped d1, atoiDigitsClamped d2)
    else none

/-- Leftmost match of the unanchored pattern `(\d+)\s*OP\s*(\d+)`
(`FindStringSubmatch`), scanning start positions left to right. -/
def matchNumOp (op : List Char) : List Char → Option (Int × Int)
  | [] => none
  | c :: rest =>
    match matchNumOpHere op (c :: rest) with
    | some p => some p
    | none => matchNumOp op rest

/-- `StatusValidator.evaluateSingleExpression`: the anchored
"operator number" patterns (actual status as implicit left operand) are
tried in the order `>= <= > < == !=`, then the two-operand
"number operator number" patterns in the same operator order; no match
yields `false`. -/
def evaluateSingleExpression (expr : String) (actual : Int) : Bool :=
  let cs := expr.toList
  match matchAnchoredOp [ '>', '=' ] cs with
  | some r => actual ≥ r
  | none =>
  match matchAnchoredOp [ '<', '=' ] cs with
  | some r => actual ≤ r
  | none =>
  match matchAnchoredOp [ '>' ] cs with
  | some r => actual > r
  | none =>
  match matchAnchoredOp [ '<' ] cs with
  | some r => actual < r
  | none =>
  match matchAnchoredOp [ '=', '=' ] cs with
  | some r => actual = r
  | none =>
  match matchAnchoredOp [ '!', '=' ] cs with
  | some r => ¬ (actual = r)
  | none =>
  match matchNumOp [ '>', '=' ] cs with
  | some (l, r) => l ≥ r
  | none =>
  match matchNumOp [ '<', '=' ] cs with
  | some (l, r) => l ≤ r
  | none =>
  match matchNumOp [ '>' ] cs with
  | some (l, r) => l > r
  | none =>
  match matchNumOp [ '<' ] cs with
  | some (l, r) => l < r
  | none =>
  match matchNumOp [ '=', '=' ] cs with
  | some (l, r) => l = r
  | none =>
  match matchNumOp [ '!', '=' ] cs with
  | some (l, r) => ¬ (l = r)
  | none => false

/-- The substitution performed at the top of
`StatusValidator.evaluateExpression`: every occurrence of the literal
`status` is replaced by the actual status code. -/
def statusSubst (expr : String) (actual : Int) : String :=
  replaceAll expr "status" (toString actual)

/-- `StatusValidator.evaluateExpression`: after substituting `status`, an
expression containing `&&` is split on `&&` and every part must hold; else
one containing `||` is split on `||` and some part must hold; otherwise a
single comparison. -/
def evaluateExpression (expr0 : String) (actual : Int) : Bool :=
  let expr := statusSubst expr0 actual
  if containsSub expr "&&" then
    (splitSub expr "&&").all (fun part => evaluateSingleExpression (trimSpace part) actual)
  else if containsSub expr "||" then
    (splitSub expr "||").any (fun part => evaluateSingleExpression (trimSpace part) actual)
  else
    evaluateSingleExpression expr actual

/-- The spec's description of compound evaluation, for comparison with
`evaluateExpression`: the value is split only on the first kind of
connective (`&&` or `||`) seen in scan order, each side evaluated
independently. -/
def evaluateExpressionSpec (expr0 : String) (actual : Int) : Bool :=
  let expr := statusSubst expr0 actual
  if containsSub expr "&&" ∧ containsSub expr "||" then
    -- both kinds present: the kind whose first occurrence comes first wins
    if (firstIdxOf "&&".toList expr.toList).getD 0 ≤
        (firstIdxOf "||".toList expr.toList).getD 0 then
      (splitSub expr "&&").all (fun part => evaluateSingleExpression (trimSpace part) actual)
    else
      (splitSub expr "||").any (fun part => evaluateSingleExpression (trimSpace part) actual)
  else if containsSub expr "&&" then
    (splitSub expr "&&").all (fun part => evaluateSingleExpression (trimSpace part) actual)
  else if containsSub expr "||" then
    (splitSub expr "||").any (fun part => evaluateSingleExpression (trimSpace part) actual)
  else evaluateSingleExpression expr actual

/-- `StatusValidator.isExpression`. -/
def isExpression (s : String) : Bool :=
  [">=", "<=", "!=", "==", ">", "<", "&&", "||"].any (fun op => containsSub s op)

/-- `StatusValidator.Validate`. -/
def statusValidate (result : TestResult) (a : Assertion) : Option AssertionFailure :=
  let expected := trimSpace a.value
  let actual := result.statusCode
  match goAtoi expected with
  | some expectedCode =>
    if actual = expectedCode then none
    else some { type := "status", expected := expected, actual := toString actual,
                message := "expected status " ++ expected ++ ", got " ++ toString actual }
  | none =>
    if isExpression expected then
      if evaluateExpression expected actual then none
      else some { type := "status", expected := expected, actual := toString actual,
                  message := "status " ++ toString actual ++
                    " does not satisfy expression: " ++ expected }
    else
      some { type := "status", message := "invalid status assertion format: " ++ expected }

/-! ## JSON documents and the `gjson` collaborator

`gjson` is a third-party dependency; its behaviour on the plain
dot-separated paths the engine uses is modelled here: parse the response
body, then navigate object keys / array indices.  A path bound to a JSON
`null` literal exists (`Result.Exists()` is true), mirroring gjson. -/

/-- An exact rational kept as an unnormalised fraction with positive
denominator, modelling the `float64` values the validators compare
(comparisons are by cross-multiplication, so no normalisation is needed). -/
structure QNum where
  num : Int
  den : Nat := 1
deriving Repr, DecidableEq, Inhabited

/-- Numeric equality of fractions. -/
def qnumEq (a b : QNum) : Bool := a.num * (b.den : Int) = b.num * (a.den : Int)

/-- Numeric strict order of fractions (positive denominators). -/
def qnumLt (a b : QNum) : Bool := a.num * (b.den : Int) < b.num * (a.den : Int)

/-- Numeric non-strict order of fractions (positive denominators). -/
def qnumLe (a b : QNum) : Bool := a.num * (b.den : Int) ≤ b.num * (a.den : Int)

/-- Build the value `± digits / 10^fracLen · 10^exp` as a fraction. -/
def qnumOfParts (neg : Bool) (digits : Nat) (fracLen : Nat) (exp : Int) : QNum :=
  let num0 : Int := if neg then -(digits : Int) else (digits : Int)
  if 0 ≤ exp then
    { num := num0 * (10 : Int) ^ exp.toNat, den := 10 ^ fracLen }
  else
    { num := num0, den := 10 ^ (fracLen + (-exp).toNat) }

/-- A parsed JSON document.  Numbers are exact fractions (the `float64`
reading of `gjson.Result.Float()` is modelled exactly). -/
inductive Json where
  | null
  | bool (b : Bool)
  | num (q : QNum)
  | str (s : String)
  | arr (xs : List Json)
  | obj (fields : List (String × Json))
deriving Inhabited

/-- JSON white-space. -/
def jsonWs (c : Char) : Bool :=
  c = ' ' || c = '\t' || c = '\n' || c = '\r'

/-- Decimal digits as a natural number plus count, for number parsing. -/
def digitsVal (ds : List Char) : Nat := natOfDigits ds

/-- Parse a JSON number (sign, integer part, optional fraction, optional
exponent) into an exact rational. -/
def parseJsonNumber (s : List Char) : Option (QNum × List Char) :=
  let (neg, s1) : Bool × List Char := match s with
    | '-' :: rest => (true, rest)
    | rest => (false, rest)
  let intDs := s1.takeWhile (·.isDigit)
  if intDs.isEmpty then none
  else
    let s2 := s1.drop intDs.length
    let (fracDs, s3) : List Char × List Char := match s2 with
      | '.' :: rest =>
        let ds := rest.takeWhile (·.isDigit)
        (ds, rest.drop ds.length)
      | rest => ([], rest)
    let (expOk, expVal, s4) : Bool × Int × List Char := match s3 with
      | 'e' :: rest | 'E' :: rest =>
        let (eneg, r1) : Bool × List Char := match rest with
          | '-' :: r => (true, r)
          | '+' :: r => (false, r)
          | r => (false, r)
        let eds := r1.takeWhile (·.isDigit)
        if eds.isEmpty then (false, 0, r1)
        else (true, if eneg then -(digitsVal eds : Int) else (digitsVal eds : Int),
              r1.drop eds.length)
      | rest => (true, 0, rest)
    if ¬ expOk then none
    else some (qnumOfParts neg (digitsVal (intDs ++ fracDs)) fracDs.length expVal, s4)

/-- Parse the remainder of a JSON string literal after the opening quote,
handling the common escapes; `\uXXXX` produces the scalar value (surrogate
pairing is not modelled — no claim concerns it). -/
def parseJsonStringRest : Nat → List Char → Option (List Char × List Char)
  | 0, _ => none
  | _ + 1, [] => none
  | _ + 1, '"' :: rest => some ([], rest)
  | fuel + 1, '\\' :: e :: rest =>
    match e with
    | '"' => Option.map (fun (p : List Char × List Char) => ('"' :: p.1, p.2)) (parseJsonStringRest fuel rest)
    | '\\' => Option.map (fun (p : List Char × List Char) => ('\\' :: p.1, p.2)) (parseJsonStringRest fuel rest)
    | '/' => Option.map (fun (p : List Char × List Char) => ('/' :: p.1, p.2)) (parseJsonStringRest fuel rest)
    | 'n' => Option.map (fun (p : List Char × List Char) => ('\n' :: p.1, p.2)) (parseJsonStringRest fuel rest)
    | 't' => Option.map (fun (p : List Char × List Char) => ('\t' :: p.1, p.2)) (parseJsonStringRest fuel rest)
    | 'r' => Option.map (fun (p : List Char × List Char) => ('\r' :: p.1, p.2)) (parseJsonStringRest fuel rest)
    | 'b' => Option.map (fun (p : List Char × List Char) => ('\x08' :: p.1, p.2)) (parseJsonStringRest fuel rest)
    | 'f' => Option.map (fun (p : List Char × List Char) => ('\x0c' :: p.1, p.2)) (parseJsonStringRest fuel rest)
    | 'u' =>
      match rest with
      | h1 :: h2 :: h3 :: h4 :: rest' =>
        if [h1, h2, h3, h4].all (fun c => c.isDigit || ('a' ≤ c ∧ c ≤ 'f') || ('A' ≤ c ∧ c ≤ 'F')) then
          let hv := fun (c : Char) =>
            if c.isDigit then c.toNat - '0'.toNat
            else if 'a' ≤ c ∧ c ≤ 'f' then c.toNat - 'a'.toNat + 10
            else c.toNat - 'A'.toNat + 10
          let n := ((hv h1 * 16 + hv h2) * 16 + hv h3) * 16 + hv h4
          Option.map (fun (p : List Char × List Char) => (Char.ofNat n :: p.1, p.2)) (parseJsonStringRest fuel rest')
        else none
      | _ => none
    | _ => none
  | fuel + 1, c :: rest =>
    Option.map (fun (p : List Char × List Char) => (c :: p.1, p.2)) (parseJsonStringRest fuel rest)

mutual

/-- Parse one JSON value. -/
def parseJsonVal : Nat → List Char → Option (Json × List Char)
  | 0, _ => none
  | fuel + 1, s =>
    match s.dropWhile jsonWs with
    | 'n' :: 'u' :: 'l' :: 'l' :: rest => some (.null, rest)
    | 't' :: 'r' :: 'u' :: 'e' :: rest => some (.bool true, rest)
    | 'f' :: 'a' :: 'l' :: 's' :: 'e' :: rest => some (.bool false, rest)
    | '"' :: rest =>
      Option.map (fun (p : List Char × List Char) => (Json.str ⟨p.1⟩, p.2))
        (parseJsonStringRest (rest.length + 1) rest)
    | '[' :: rest =>
      (match (rest.dropWhile jsonWs) with
       | ']' :: r => some (.arr [], r)
       | _ => Option.map (fun (p : List Json × List Char) => (Json.arr p.1, p.2)) (parseJsonItems fuel rest))
    | '\x7b' :: rest =>
      (match (rest.dropWhile jsonWs) with
       | '\x7d' :: r => some (.obj [], r)
       | _ => Option.map (fun (p : List (String × Json) × List Char) => (Json.obj p.1, p.2)) (parseJsonFields fuel rest))
    | other => Option.map (fun (p : QNum × List Char) => (Json.num p.1, p.2)) (parseJsonNumber other)

/-- Parse comma-separated array items up to `]`. -/
def parseJsonItems : Nat → List Char → Option (List Json × List Char)
  | 0, _ => none
  | fuel + 1, s =>
    match parseJsonVal fuel s with
    | none => none
    | some (v, rest) =>
      match rest.dropWhile jsonWs with
      | ',' :: rest' =>
        Option.map (fun (p : List Json × List Char) => (v :: p.1, p.2)) (parseJsonItems fuel rest')
      | ']' :: rest' => some ([v], rest')
      | _ => none

/-- Parse comma-separated `"key": value` fields up to the closing brace. -/
def parseJsonFields : Nat → List Char → Option (List (String × Json) × List Char)
  | 0, _ => none
  | fuel + 1, s =>
    match s.dropWhile jsonWs with
    | '"' :: rest =>
      match parseJsonStringRest (rest.length + 1) rest with
      | none => none
      | some (key, rest1) =>
        match rest1.dropWhile jsonWs with
        | ':' :: rest2 =>
          match parseJsonVal fuel rest2 with
          | none => none
          | some (v, rest3) =>
            match rest3.dropWhile jsonWs with
            | ',' :: rest4 =>
              Option.map (fun (p : List (String × Json) × List Char) => ((String.mk key, v) :: p.1, p.2))
                (parseJsonFields fuel rest4)
            | '\x7d' :: rest4 => some ([(⟨key⟩, v)], rest4)
            | _ => none
        | _ => none
    | _ => none

end

/-- Parse a JSON document from a response-body string. -/
def parseJson (body : String) : Option Json :=
  (parseJsonVal (body.toList.length + 1) body.toList).map (·.1)

/-- Navigate a parsed document along dot-separated path parts: object keys
by first exact match, array elements by numeric index. -/
def jsonNavigate : Json → List String → Option Json
  | j, [] => some j
  | .obj fields, k :: rest =>
    match fields.lookup k with
    | some v => jsonNavigate v rest
    | none => none
  | .arr xs, k :: rest =>
    if ¬ k.toList.isEmpty ∧ k.toList.all (·.isDigit) then
      match xs.get? (natOfDigits k.toList) with
      | some v => jsonNavigate v rest
      | none => none
    else none
  | _, _ => none

/-- Model of `gjson.Get`: `none` when the path does not exist in the body
(`Result.Exists()` false), `some` of the value otherwise — including
`some .null` for a path bound to a JSON `null`. -/
def gjsonGet (body path : String) : Option Json :=
  match parseJson body with
  | none => none
  | some j => jsonNavigate j (splitSub path ".")

/-! ## JSON path validator (`internal/assertion/jsonpath.go`) -/

/-- Byte-wise Go string ordering (`<` on strings), on the ASCII data the
validators compare. -/
def strLess : List Char → List Char → Bool
  | [], [] => false
  | [], _ :: _ => true
  | _ :: _, [] => false
  | a :: as, b :: bs => if a < b then true else if b < a then false else strLess as bs

/-- `strconv.ParseFloat` modelled for finite decimal forms (sign, digits
with optional fraction, optional exponent); `Inf`/`NaN`/hex floats are not
modelled and yield `none`.  Values are exact fractions. -/
def parseFloatQ (s : String) : Option QNum :=
  let cs := s.toList
  let (neg, s1) : Bool × List Char := match cs with
    | '-' :: rest => (true, rest)
    | '+' :: rest => (false, rest)
    | rest => (false, rest)
  let intDs := s1.takeWhile (·.isDigit)
  let s2 := s1.drop intDs.length
  let (fracDs, s3) : List Char × List Char := match s2 with
    | '.' :: rest =>
      let ds := rest.takeWhile (·.isDigit)
      (ds, rest.drop ds.length)
    | rest => ([], rest)
  if intDs.isEmpty ∧ fracDs.isEmpty then none
  else
    match s3 with
    | [] => some (qnumOfParts neg (digitsVal (intDs ++ fracDs)) fracDs.length 0)
    | 'e' :: rest | 'E' :: rest =>
      let (eneg, r1) : Bool × List Char := match rest with
        | '-' :: r => (true, r)
        | '+' :: r => (false, r)
        | r => (false, r)
      let eds := r1.takeWhile (·.isDigit)
      if eds.isEmpty ∨ ¬ (r1.drop eds.length).isEmpty then none
      else
        let e : Int := if eneg then -(digitsVal eds : Int) else (digitsVal eds : Int)
        some (qnumOfParts neg (digitsVal (intDs ++ fracDs)) fracDs.length e)
    | _ => none

/-- `JSONPathValidator.parseExpression`: the operators `== != >= <= > <`
are tried in that order, each located as the first occurrence of
`" op "`; returns path, operator and value, all trimmed. -/
def jpParseExpression (expr : String) : Option (String × String × String) :=
  let cs := expr.toList
  let rec go : List String → Option (String × String × String)
    | [] => none
    | op :: rest =>
      match firstIdxOf (' ' :: op.toList ++ [' ']) cs with
      | some idx =>
        some (trimSpace ⟨cs.take idx⟩, op,
              trimSpace ⟨cs.drop (idx + op.toList.length + 2)⟩)
      | none => go rest
  go ["==", "!=", ">=", "<=", ">", "<"]

/-- `JSONPathValidator.evaluateString`: quotes are trimmed from the
expected value, then the operator compares byte-wise. -/
def jpEvaluateString (actual : String) (operator expected0 : String) : Bool :=
  let expected := goTrim expected0 [ '"', '\'' ]
  match operator with
  | "==" => actual = expected
  | "!=" => ¬ (actual = expected)
  | ">" => strLess expected.toList actual.toList
  | "<" => strLess actual.toList expected.toList
  | ">=" => ¬ strLess actual.toList expected.toList
  | "<=" => ¬ strLess expected.toList actual.toList
  | _ => false

/-- `JSONPathValidator.evaluateNumber`. -/
def jpEvaluateNumber (actual : QNum) (operator expected : String) : Bool :=
  match parseFloatQ expected with
  | none => false
  | some expectedNum =>
    match operator with
    | "==" => qnumEq actual expectedNum
    | "!=" => ¬ qnumEq actual expectedNum
    | ">" => qnumLt expectedNum actual
    | "<" => qnumLt actual expectedNum
    | ">=" => qnumLe expectedNum actual
    | "<=" => qnumLe actual expectedNum
    | _ => false

/-- `JSONPathValidator.evaluateBool`. -/
def jpEvaluateBool (actual : Bool) (operator expected0 : String) : Bool :=
  let expected := toLowerStr (trimSpace expected0)
  let expectedBool := expected = "true"
  match operator with
  | "==" => actual = expectedBool
  | "!=" => ¬ (actual = expectedBool)
  | _ => false

/-- `JSONPathValidator.evaluateNull`: equality/inequality against the
literal token `null`. -/
def jpEvaluateNull (operator expected0 : String) : Bool :=
  let expected := toLowerStr (trimSpace expected0)
  match operator with
  | "==" => expected = "null"
  | "!=" => ¬ (expected = "null")
  | _ => false

/-- `gjson.Result.String()` for the "complex types" default branch of the
condition evaluator (arrays/objects render as their JSON text; no claim
depends on the exact rendering). -/
def jsonRawString : Json → String
  | .null => ""
  | .bool b => if b then "true" else "false"
  | .num q => if q.den = 1 then toString q.num else toString q.num ++ "/" ++ toString q.den
  | .str s => s
  | .arr _ => "[…]"
  | .obj _ => "\x7b…\x7d"

/-- `JSONPathValidator.evaluateCondition`: dispatch on the gjson value
type. -/
def jpEvaluateCondition (actual : Json) (operator expected : String) : Bool :=
  match actual with
  | .str s => jpEvaluateString s operator expected
  | .num q => jpEvaluateNumber q operator expected
  | .bool b => jpEvaluateBool b operator expected
  | .null => jpEvaluateNull operator expected
  | _ => jpEvaluateString (jsonRawString actual) operator expected

/-- `fmt %v` of `gjson.Result.Value()` in failure messages (`<nil>` for
null; renderings of other values are approximate and claim-irrelevant). -/
def jsonValueString : Json → String
  | .null => "<nil>"
  | .bool b => if b then "true" else "false"
  | .num q => if q.den = 1 then toString q.num else toString q.num ++ "/" ++ toString q.den
  | .str s => s
  | j => jsonRawString j

/-- `strings.TrimPrefix(path, ".")`. -/
def trimLeadingDot (path : String) : String :=
  match path.toList with
  | '.' :: rest => ⟨rest⟩
  | _ => path

/-- The "path not found" failure produced when the JSON path does not
exist (`%q` modelled as plain quoting for the ASCII paths used). -/
def jpNotFoundFailure (path : String) : AssertionFailure :=
  { type := "json_path",
    expected := "path \"" ++ path ++ "\" to exist",
    actual := "path does not exist",
    message := "JSON path \"" ++ path ++ "\" not found" }

/-- The value-mismatch failure of the JSON path validator. -/
def jpMismatchFailure (path operator expected : String) (j : Json) : AssertionFailure :=
  { type := "json_path",
    expected := path ++ " " ++ operator ++ " " ++ expected,
    actual := path ++ " = " ++ jsonValueString j,
    message := path ++ " " ++ operator ++ " " ++ expected ++ " failed: got " ++
      jsonValueString j }

/-- `JSONPathValidator.Validate`: parse `"<path> <op> <value>"`, strip the
leading dot, check path existence first, then evaluate the typed
condition. -/
def jsonPathValidate (result : TestResult) (a : Assertion) : Option AssertionFailure :=
  let expr := trimSpace a.value
  match jpParseExpression expr with
  | none =>
    some { type := "json_path",
           message := "invalid expression: no valid operator found in expression: " ++ expr }
  | some (path0, operator, expectedValue) =>
    let path := trimLeadingDot path0
    match gjsonGet result.responseBody path with
    | none => some (jpNotFoundFailure path)
    | some jsonResult =>
      if jpEvaluateCondition jsonResult operator expectedValue then none
      else some (jpMismatchFailure path operator expectedValue jsonResult)

/-! ## Header validator (`HeaderValidator`) -/

/-- `HeaderValidator.parseExpression`: the spaced operator tokens are tried
in source order (`contains == != > < >= <=`); the first one found by
`strings.Index` splits the expression, and quotes are trimmed from the
value. -/
def hdrParseExpression (expr : String) : Option (String × String × String) :=
  let cs := expr.toList
  let rec go : List String → Option (String × String × String)
    | [] => none
    | op :: rest =>
      match firstIdxOf op.toList cs with
      | some idx =>
        some (trimSpace ⟨cs.take idx⟩, trimSpace op,
              goTrim (trimSpace ⟨cs.drop (idx + op.toList.length)⟩) [ '"', '\'' ])
      | none => go rest
  go [" contains ", " == ", " != ", " > ", " < ", " >= ", " <= "]

/-- `HeaderValidator.getHeader`: case-insensitive lookup returning the
first value of the first matching key that has values; map iteration is
resolved to list order. -/
def getHeader : List (String × List String) → String → String
  | [], _ => ""
  | (key, values) :: rest, name =>
    if eqFold key name then
      match values with
      | v :: _ => v
      | [] => getHeader rest name
    else getHeader rest name

/-- `HeaderValidator.evaluateCondition`: equality, inequality, substring
containment, and numeric comparisons that fall back to byte-wise string
comparison when either side fails to parse as a float. -/
def hdrEvaluateCondition (actual operator expected : String) : Bool :=
  match operator with
  | "==" => actual = expected
  | "!=" => ¬ (actual = expected)
  | "contains" => containsSub actual expected
  | ">" =>
    match parseFloatQ actual, parseFloatQ expected with
    | some a, some e => qnumLt e a
    | _, _ => strLess expected.toList actual.toList
  | "<" =>
    match parseFloatQ actual, parseFloatQ expected with
    | some a, some e => qnumLt a e
    | _, _ => strLess actual.toList expected.toList
  | ">=" =>
    match parseFloatQ actual, parseFloatQ expected with
    | some a, some e => qnumLe e a
    | _, _ => ¬ strLess actual.toList expected.toList
  | "<=" =>
    match parseFloatQ actual, parseFloatQ expected with
    | some a, some e => qnumLe a e
    | _, _ => ¬ strLess expected.toList actual.toList
  | _ => false

/-- The "header not found" failure. -/
def hdrNotFoundFailure (headerName : String) : AssertionFailure :=
  { type := "header",
    expected := "header \"" ++ headerName ++ "\" to exist",
    actual := "header not found",
    message := "header \"" ++ headerName ++ "\" not found in response" }

/-- `HeaderValidator.Validate`: parse `"<name> <op> <value>"`, look the
header up case-insensitively, report "header not found" when the lookup
yields the empty string, otherwise compare. -/
def headerValidate (result : TestResult) (a : Assertion) : Option AssertionFailure :=
  let expr := trimSpace a.value
  match hdrParseExpression expr with
  | none =>
    some { type := "header",
           message := "invalid expression: no valid operator found in expression: " ++ expr }
  | some (headerName, operator, expectedValue) =>
    let actualValue := getHeader result.headers headerName
    if actualValue = "" then some (hdrNotFoundFailure headerName)
    else if hdrEvaluateCondition actualValue operator expectedValue then none
    else
      some { type := "header",
             expected := headerName ++ " " ++ operator ++ " " ++ expectedValue,
             actual := headerName ++ " = " ++ actualValue,
             message := headerName ++ " " ++ operator ++ " " ++ expectedValue ++
               " failed: got " ++ actualValue }

/-! ## Body validators (`BodyValidator`, `BodyContainsValidator`) -/

/-- The 100-character display truncation shared by the body validators
(byte truncation modelled on characters for the ASCII bodies compared). -/
def truncateStr (s : String) (maxLen : Nat) : String :=
  if s.toList.length ≤ maxLen then s else ⟨s.toList.take maxLen⟩ ++ "..."

/-- `BodyValidator.Validate`: exact string equality. -/
def bodyValidate (result : TestResult) (a : Assertion) : Option AssertionFailure :=
  if result.responseBody = a.value then none
  else
    some { type := "body", expected := a.value,
           actual := truncateStr result.responseBody 100,
           message := "body mismatch: expected exact match" }

/-- `BodyContainsValidator.Validate`: substring test. -/
def bodyContainsValidate (result : TestResult) (a : Assertion) : Option AssertionFailure :=
  if containsSub result.responseBody a.value then none
  else
    some { type := "body_contains",
           expected := "body to contain: \"" ++ a.value ++ "\"",
           actual := truncateStr result.responseBody 100,
           message := "body does not contain \"" ++ a.value ++ "\"" }

/-! ## Response-time validator (`ResponseTimeValidator`) -/

/-- `ResponseTimeValidator.parseDuration`: the pattern
`^(\d+(?:\.\d+)?)(ms|s|m|h)$` with the decimal value scaled by the unit and
truncated to nanoseconds (`time.Duration(value * float(unit))`). -/
def parseGoDuration (s : String) : Option Duration :=
  let cs := s.toList
  let intDs := cs.takeWhile (·.isDigit)
  if intDs.isEmpty then none
  else
    let s1 := cs.drop intDs.length
    let (fracDs, s2) : List Char × List Char := match s1 with
      | '.' :: rest =>
        let ds := rest.takeWhile (·.isDigit)
        (ds, rest.drop ds.length)
      | rest => ([], rest)
    let fracOk : Bool := match s1 with
      | '.' :: _ => ¬ fracDs.isEmpty
      | _ => true
    if ¬ fracOk then none
    else
      let unitNs : Option Duration := match s2 with
        | ['m', 's'] => some millisecond
        | ['s'] => some second
        | ['m'] => some minuteDur
        | ['h'] => some hourDur
        | _ => none
      match unitNs with
      | none => none
      | some u =>
        -- value * unit, truncated toward zero (value is non-negative)
        some ((digitsVal (intDs ++ fracDs) * u.toNat) / 10 ^ fracDs.length : Nat)

/-- `ResponseTimeValidator.parseExpression`: an operator taken from the
source-ordered list `<= >= < > == !=` must be a literal prefix, followed by
a duration. -/
def rtParseExpression (expr : String) : Option (String × Duration) :=
  let rec findOp : List String → Option String
    | [] => none
    | op :: rest => if hasPre expr op then some op else findOp rest
  match findOp ["<=", ">=", "<", ">", "==", "!="] with
  | none => none
  | some op =>
    match parseGoDuration (trimSpace ⟨expr.toList.drop op.toList.length⟩) with
    | none => none
    | some d => some (op, d)

/-- `ResponseTimeValidator.evaluateCondition`. -/
def rtEvaluateCondition (actual : Duration) (operator : String) (expected : Duration) : Bool :=
  match operator with
  | "<" => actual < expected
  | "<=" => actual ≤ expected
  | ">" => actual > expected
  | ">=" => actual ≥ expected
  | "==" => actual = expected
  | "!=" => ¬ (actual = expected)
  | _ => false

/-- `ResponseTimeValidator.Validate` (the two distinct error messages for
operator-extraction and duration-parsing failures are kept; Go's pretty
`Duration.String()` rendering is not modelled — no claim reads it). -/
def responseTimeValidate (result : TestResult) (a : Assertion) : Option AssertionFailure :=
  let expr := trimSpace a.value
  let rec findOp : List String → Option String
    | [] => none
    | op :: rest => if hasPre expr op then some op else findOp rest
  match findOp ["<=", ">=", "<", ">", "==", "!="] with
  | none =>
    some { type := "response_time",
           message := "invalid expression: no valid operator found in expression: " ++ expr }
  | some op =>
    let durationStr := trimSpace ⟨expr.toList.drop op.toList.length⟩
    match parseGoDuration durationStr with
    | none =>
      some { type := "response_time",
             message := "invalid expression: invalid duration \"" ++ durationStr ++
               "\": invalid duration format: " ++ durationStr }
    | some duration =>
      if rtEvaluateCondition result.responseTime op duration then none
      else
        some { type := "response_time",
               expected := op ++ " " ++ toString duration ++ "ns",
               actual := toString result.responseTime ++ "ns",
               message := "response time " ++ toString result.responseTime ++
                 "ns does not satisfy " ++ op ++ " " ++ toString duration ++ "ns" }

/-! ## Assertion engine (`internal/assertion/engine.go`) -/

/-- The validator registry of `assertion.NewEngine`, keyed by assertion
type. -/
def lookupValidator : String → Option (TestResult → Assertion → Option AssertionFailure)
  | "status" => some statusValidate
  | "body" => some bodyValidate
  | "body_contains" => some bodyContainsValidate
  | "json_path" => some jsonPathValidate
  | "header" => some headerValidate
  | "response_time" => some responseTimeValidate
  | _ => none

/-- The registered assertion types. -/
def registeredTypes : List String :=
  ["status", "body", "body_contains", "json_path", "header", "response_time"]

/-- `Engine.Validate`: every assertion is dispatched in order; an
unregistered type appends an "unsupported assertion type" failure; a
validator's failure (when any) is appended; no assertion is skipped. -/
def engineValidate (result : TestResult) : List Assertion → List AssertionFailure
  | [] => []
  | a :: rest =>
    (match lookupValidator a.type with
     | none => [{ type := a.type, message := "unsupported assertion type: " ++ a.type }]
     | some validator =>
       match validator result a with
       | some failure => [failure]
       | none => []) ++ engineValidate result rest

/-! ## HTTP executor (`internal/executor`)

`Execute` wraps the external collaborators: the curl parser, request
construction, the HTTP client and body reading.  Their outcomes are
supplied by a `World` oracle, indexed by the number of executions
performed so far; context cancellation during a backoff sleep is an oracle
indexed by the number of sleeps reached so far. -/

/-- Outcome of the collaborator chain inside one `Execute` call. -/
inductive HttpOutcome where
  /-- `http.NewRequestWithContext` failed. -/
  | createErr (msg : String)
  /-- `client.Do` failed (transport error, includes context cancellation
  during the request). -/
  | doErr (msg : String) (elapsed : Duration)
  /-- `io.ReadAll` on the response body failed. -/
  | readErr (msg : String) (elapsed : Duration)
  /-- A completed HTTP exchange. -/
  | ok (status : Int) (body : String) (headers : List (String × List String))
      (elapsed : Duration)
deriving Repr, DecidableEq, Inhabited

/-- The external collaborators of one run. -/
structure World where
  /-- Outcome of the `i`-th execution attempt (0-based, across the run). -/
  http : Nat → HttpOutcome
  /-- `parser.CurlParser.ParseCurl` (external component). -/
  parseCurl : String → Except String PreparedRequest
  /-- Whether the caller's context is cancelled when the `i`-th backoff
  sleep (0-based, across the run) is reached. -/
  cancelAtSleep : Nat → Bool

/-- `Executor.prepareRequest`: parse the curl command when present,
otherwise use the structured request; neither present is the
"no request specification found" error. -/
def prepareRequest (w : World) (test : Test) : Except String PreparedRequest :=
  if test.curl ≠ "" then w.parseCurl test.curl
  else
    match test.request with
    | none => .error "no request specification found"
    | some req =>
      .ok { method := req.method, url := req.url, headers := req.headers,
            body := req.body }

/-- `Executor.Execute`: every failure of the collaborator chain is stored
in `TestResult.error` with `success := false` and a `nil` Go error is
returned (`execute` never returns a non-`none` error); a completed
exchange populates status, body and headers and leaves `success` at its
zero value `false`.  Returns the result, the Go error return, and the
advanced oracle cursor. -/
def execute (w : World) (test : Test) (n : Nat) :
    TestResult × Option String × Nat :=
  let result : TestResult := { test := test }
  match prepareRequest w test with
  | .error e => ({ result with error := some e, success := false }, none, n)
  | .ok preparedReq =>
    let result := { result with preparedRequest := some preparedReq }
    match w.http n with
    | .createErr msg =>
      ({ result with error := some ("failed to create HTTP request: " ++ msg),
                     success := false }, none, n + 1)
    | .doErr msg elapsed =>
      ({ result with responseTime := elapsed,
                     error := some ("request failed: " ++ msg),
                     success := false }, none, n + 1)
    | .readErr msg elapsed =>
      ({ result with responseTime := elapsed,
                     error := some ("failed to read response body: " ++ msg),
                     success := false }, none, n + 1)
    | .ok status body headers elapsed =>
      ({ result with responseTime := elapsed, statusCode := status,
                     responseBody := body, headers := headers }, none, n + 1)

/-- Instrumentation: one entry per attempt executed by the retry loop,
recording the attempt's result, its Go error return, and whether a backoff
sleep completed after it. -/
structure AttemptEv where
  result : TestResult
  err : Option String
  slept : Bool
  delay : Option Duration
deriving Repr, DecidableEq, Inhabited

/-- Output of `ExecuteWithRetry`, with the execution cursor and the
completed backoff sleeps as instrumentation. -/
structure RetryOut where
  result : Option TestResult
  err : Option String
  next : Nat
  sleeps : List Duration
  attempts : List AttemptEv
deriving Repr, DecidableEq, Inhabited

/-- The attempt loop of `Executor.ExecuteWithRetry`.  `remaining` counts
the attempts still allowed including the current one
(`maxAttempts - attempt`); `attempt` is the 0-based attempt index; `n` the
execution cursor; `sleepIdx` the global sleep index. -/
def retryLoop (w : World) (test : Test) :
    Nat → Nat → Nat → Nat → List Duration → List AttemptEv →
    Option TestResult × Option String → RetryOut
  | 0, _, n, _, sleeps, attempts, last =>
    { result := last.1, err := last.2, next := n, sleeps := sleeps,
      attempts := attempts }
  | remaining + 1, attempt, n, sleepIdx, sleeps, attempts, _ =>
    let (result, err, n') := execute w test n
    -- If execution succeeded, return immediately
    if err = none ∧ result.success then
      { result := some result, err := none, next := n', sleeps := sleeps,
        attempts := attempts ++ [⟨result, err, false, none⟩] }
    else
      -- Save last result and error; stop after the last attempt
      if remaining = 0 then
        { result := some result, err := err, next := n', sleeps := sleeps,
          attempts := attempts ++ [⟨result, err, false, none⟩] }
      else
        -- Determine if we should retry based on status code
        let shouldRetryRequest : Bool :=
          if test.retryOnStatus.length > 0 then
            shouldRetry result.statusCode test.retryOnStatus
          else if result.success = false then true
          else false
        if shouldRetryRequest = false then
          { result := some result, err := err, next := n', sleeps := sleeps,
            attempts := attempts ++ [⟨result, err, false, none⟩] }
        else
          let delay := calculateDelay attempt test.retryDelay test.retryBackoff
          if w.cancelAtSleep sleepIdx then
            -- context cancellation during the sleep: last result + ctx error
            { result := some result, err := some "context canceled", next := n',
              sleeps := sleeps, attempts := attempts ++ [⟨result, err, false, none⟩] }
          else
            retryLoop w test remaining (attempt + 1) n' (sleepIdx + 1)
              (sleeps ++ [delay]) (attempts ++ [⟨result, err, true, some delay⟩])
              (some result, err)

/-- `Executor.ExecuteWithRetry`: `maxAttempts = retries + 1`; at most one
plain execution when no retries are configured, otherwise the attempt
loop. -/
def executeWithRetry (w : World) (test : Test) (n sleepIdx : Nat) : RetryOut :=
  let maxAttempts := test.retries + 1
  if maxAttempts ≤ 1 then
    let (result, err, n') := execute w test n
    { result := some result, err := err, next := n', sleeps := [], attempts := [] }
  else
    retryLoop w test maxAttempts.toNat 0 n sleepIdx [] [] (none, none)

/-! ## Runners (`internal/runner`) -/

/-- The stats loop shared by `Run` and `RunParallel`: count passed and
failed results and package the `SuiteResult`. -/
def collectStats (results : List TestResult) : SuiteResult :=
  let counts := results.foldl
    (fun (pf : Nat × Nat) result =>
      if result.success then (pf.1 + 1, pf.2) else (pf.1, pf.2 + 1)) (0, 0)
  { results := results, totalTests := results.length,
    passedTests := counts.1, failedTests := counts.2 }

/-- Output of the sequential `Runner.Run`, instrumented with the number of
executions, the completed backoff sleeps, and the number of
`engine.Validate` invocations. -/
structure RunOut where
  out : Except String SuiteResult
  execs : Nat
  sleeps : List Duration
  validates : Nat
deriving Repr, Inhabited

/-- The per-test loop of `Runner.Run`: execute with retry, abort the whole
run on a non-nil error return, otherwise run assertions when the result
has no execution error, and accumulate. -/
def runSeqLoop (w : World) :
    List Test → Nat → Nat → List Duration → Nat → List TestResult → RunOut
  | [], cursor, _, sleeps, validates, acc =>
    { out := .ok (collectStats acc), execs := cursor, sleeps := sleeps,
      validates := validates }
  | test :: rest, cursor, sleepIdx, sleeps, validates, acc =>
    let o := executeWithRetry w test cursor sleepIdx
    match o.err with
    | some e =>
      { out := .error e, execs := o.next, sleeps := sleeps ++ o.sleeps,
        validates := validates }
    | none =>
      match o.result with
      | none =>
        -- Go would dereference a nil result here; unreachable for this executor
        { out := .error "nil result", execs := o.next,
          sleeps := sleeps ++ o.sleeps, validates := validates }
      | some result =>
        let (result, validates) :=
          if result.error = none then
            let failures := engineValidate result test.assertions
            ({ result with failures := failures,
                           success := failures.length = 0 }, validates + 1)
          else (result, validates)
        runSeqLoop w rest o.next (sleepIdx + o.sleeps.length)
          (sleeps ++ o.sleeps) validates (acc ++ [result])

/-- `Runner.Run`. -/
def runSeq (w : World) (suite : List Test) : RunOut :=
  runSeqLoop w suite 0 0 [] 0 []

/-- The worker body of `Runner.RunParallel` for one test: a non-nil error
return from `ExecuteWithRetry` is converted into an error `TestResult`
(so the context error is attached to the result); assertions then run when
the result carries no execution error.  Scheduling nondeterminism is
captured by quantifying over the cursors. -/
def workerProcess (w : World) (test : Test) (cursor sleepIdx : Nat) : TestResult :=
  let o := executeWithRetry w test cursor sleepIdx
  let result : TestResult :=
    match o.err with
    | some e => { test := test, success := false, error := some e }
    | none =>
      match o.result with
      | some r => r
      | none => { test := test, success := false, error := some "nil result" }
  if result.error = none then
    let failures := engineValidate result test.assertions
    { result with failures := failures, success := failures.length = 0 }
  else result

/-- The finalisation of `RunParallel`: whatever result list the collector
drained (any order, any subset under cancellation) goes through the same
stats loop, and a `SuiteResult` is always returned (`RunParallel` never
returns a non-nil error). -/
def runParallelFinalize (collected : List TestResult) : SuiteResult :=
  collectStats collected

/-! ## Concrete fixtures used by the claim theorems -/

/-- A plain structured request. -/
def sampleReq : StructuredRequest :=
  { method := "GET", url := "http://example.com", headers := [], body := "" }

/-- A world whose every execution yields HTTP 200 with no transport error
and whose context is never cancelled. -/
def wOk : World :=
  { http := fun _ => .ok 200 "" [] 0,
    parseCurl := fun _ => .error "curl parser unavailable",
    cancelAtSleep := fun _ => false }

/-- One retry, no retry-status filter, no assertions. -/
def tPlain : Test := { name := "plain", request := some sampleReq, retries := 1 }

/-- A test with no curl command and no structured request. -/
def tMissing : Test := { name := "missing" }

/-- Executions return 500, 500, then 200 (the spec's retry-on-status
scenario). -/
def wScen : World :=
  { http := fun n => if n ≤ 1 then .ok 500 "" [] 0 else .ok 200 "" [] 0,
    parseCurl := fun _ => .error "curl parser unavailable",
    cancelAtSleep := fun _ => false }

/-- `Retries=2, RetryOnStatus=[500,502,503]`, no assertions. -/
def tScen : Test :=
  { name := "scen", request := some sampleReq, retries := 2,
    retryOnStatus := [500, 502, 503] }

/-- Every execution is a transport failure and the caller's context is
cancelled by the time the first backoff sleep is reached. -/
def wCancel : World :=
  { http := fun _ => .doErr "connection refused" 0,
    parseCurl := fun _ => .error "curl parser unavailable",
    cancelAtSleep := fun _ => true }

/-- A response body binding "value" to JSON null. -/
def nullBody : String := "\x7b\"value\": null\x7d"

/-- A result carrying `nullBody`. -/
def nullBodyResult : TestResult := { test := {}, responseBody := nullBody }

/-- A result whose `X-Foo` header is present with an empty first value. -/
def emptyHdrResult : TestResult := { test := {}, headers := [("X-Foo", [""])] }

/-! ## Helper lemmas -/

/-- The per-result invariant of §8 of the spec. -/
def resultInvariant (r : TestResult) : Prop :=
  r.success = true ↔ (r.failures = [] ∧ r.error = none)

/-- The `SuiteResult` invariants of §8 of the spec. -/
def suiteInvariant (s : SuiteResult) : Prop :=
  s.totalTests = s.results.length ∧
  s.passedTests + s.failedTests = s.totalTests ∧
  ∀ r ∈ s.results, resultInvariant r

theorem shouldRetry_eq_true_iff (statusCode : Int) (l : List Int) :
    shouldRetry statusCode l = true ↔ statusCode ∈ l := by
  unfold shouldRetry
  split
  · next h =>
    rw [List.length_eq_zero] at h
    subst h
    simp
  · rw [List.any_eq_true]
    constructor
    · rintro ⟨x, hx, he⟩
      rw [decide_eq_true_eq] at he
      exact he ▸ hx
    · intro h
      exact ⟨statusCode, h, by simp⟩

theorem collectStats_counts (rs : List TestResult) :
    ∀ p f : Nat,
      (rs.foldl (fun (pf : Nat × Nat) result =>
        if result.success then (pf.1 + 1, pf.2) else (pf.1, pf.2 + 1)) (p, f)).1 +
      (rs.foldl (fun (pf : Nat × Nat) result =>
        if result.success then (pf.1 + 1, pf.2) else (pf.1, pf.2 + 1)) (p, f)).2 =
      p + f + rs.length := by
  induction rs with
  | nil => intro p f; simp
  | cons r rest ih =>
    intro p f
    simp only [List.foldl_cons, List.length_cons]
    by_cases h : r.success = true
    · rw [if_pos h, ih]
      omega
    · rw [if_neg h, ih]
      omega

theorem collectStats_invariant (rs : List TestResult)
    (h : ∀ r ∈ rs, resultInvariant r) : suiteInvariant (collectStats rs) := by
  refine ⟨rfl, ?_, h⟩
  show (rs.foldl _ (0, 0)).1 + (rs.foldl _ (0, 0)).2 = rs.length
  simpa using collectStats_counts rs 0 0

/-- Every result produced by `execute` has `success = false` and no
assertion failures: `Execute` populates only status/body/headers or the
error field, and never sets the success flag. -/
theorem execute_result_shape (w : World) (test : Test) (n : Nat) :
    (execute w test n).1.success = false ∧ (execute w test n).1.failures = [] := by
  unfold execute
  cases prepareRequest w test with
  | error e => exact ⟨rfl, rfl⟩
  | ok preparedReq =>
    cases w.http n with
    | createErr msg => exact ⟨rfl, rfl⟩
    | doErr msg elapsed => exact ⟨rfl, rfl⟩
    | readErr msg elapsed => exact ⟨rfl, rfl⟩
    | ok status body headers elapsed => exact ⟨rfl, rfl⟩

/-- The retry-eligibility property the spec ascribes to each slept (i.e.
retried) attempt. -/
def attemptRetryOk (t : Test) (ev : AttemptEv) : Prop :=
  ev.slept = true →
    (ev.result.statusCode ∈ t.retryOnStatus ∨
     (t.retryOnStatus = [] ∧ ev.result.success = false))

theorem retryDecision_eq_true (t : Test) (r : TestResult)
    (h : (if t.retryOnStatus.length > 0 then shouldRetry r.statusCode t.retryOnStatus
          else if r.success = false then true else false) = true) :
    r.statusCode ∈ t.retryOnStatus ∨ (t.retryOnStatus = [] ∧ r.success = false) := by
  split at h
  · exact Or.inl ((shouldRetry_eq_true_iff _ _).mp h)
  · next hlen =>
    have hempty : t.retryOnStatus = [] := by
      rw [← List.length_eq_zero]
      omega
    split at h
    · next hs => exact Or.inr ⟨hempty, hs⟩
    · exact absurd h (by simp)

theorem retryLoop_attempts_ok (w : World) (t : Test) :
    ∀ (remaining attempt n sleepIdx : Nat) (sleeps : List Duration)
      (attempts : List AttemptEv) (last : Option TestResult × Option String),
      (∀ ev ∈ attempts, attemptRetryOk t ev) →
      ∀ ev ∈ (retryLoop w t remaining attempt n sleepIdx sleeps attempts last).attempts,
        attemptRetryOk t ev := by
  intro remaining
  induction remaining with
  | zero =>
    intro attempt n sleepIdx sleeps attempts last hacc ev hev
    exact hacc ev hev
  | succ rem ih =>
    intro attempt n sleepIdx sleeps attempts last hacc ev hev
    rcases hex : execute w t n with ⟨result, err, n'⟩
    unfold retryLoop at hev
    rw [hex] at hev
    simp only at hev
    by_cases hsucc : err = none ∧ result.success = true
    · rw [if_pos hsucc] at hev
      simp only at hev
      rcases List.mem_append.mp hev with hold | hnew
      · exact hacc ev hold
      · rw [List.mem_singleton] at hnew
        subst hnew
        intro hs
        exact absurd hs (by simp)
    · rw [if_neg hsucc] at hev
      by_cases hrem : rem = 0
      · rw [if_pos hrem] at hev
        simp only at hev
        rcases List.mem_append.mp hev with hold | hnew
        · exact hacc ev hold
        · rw [List.mem_singleton] at hnew
          subst hnew
          intro hs
          exact absurd hs (by simp)
      · rw [if_neg hrem] at hev
        by_cases hretry :
            (if t.retryOnStatus.length > 0 then shouldRetry result.statusCode t.retryOnStatus
             else if result.success = false then true else false) = false
        · rw [if_pos hretry] at hev
          simp only at hev
          rcases List.mem_append.mp hev with hold | hnew
          · exact hacc ev hold
          · rw [List.mem_singleton] at hnew
            subst hnew
            intro hs
            exact absurd hs (by simp)
        · rw [if_neg hretry] at hev
          by_cases hcan : w.cancelAtSleep sleepIdx = true
          · rw [if_pos hcan] at hev
            simp only at hev
            rcases List.mem_append.mp hev with hold | hnew
            · exact hacc ev hold
            · rw [List.mem_singleton] at hnew
              subst hnew
              intro hs
              exact absurd hs (by simp)
          · rw [if_neg hcan] at hev
            refine ih (attempt + 1) n' (sleepIdx + 1) (sleeps ++ [_])
              (attempts ++ [⟨result, err, true, some _⟩]) (some result, err) ?_ ev hev
            intro ev' hev'
            rcases List.mem_append.mp hev' with hold | hnew
            · exact hacc ev' hold
            · rw [List.mem_singleton] at hnew
              subst hnew
              intro _
              have htrue :
                  (if t.retryOnStatus.length > 0 then
                     shouldRetry result.statusCode t.retryOnStatus
                   else if result.success = false then true else false) = true := by
                rcases Bool.eq_false_or_eq_true
                  (if t.retryOnStatus.length > 0 then
                     shouldRetry result.statusCode t.retryOnStatus
                   else if result.success = false then true else false) with hb | hb
                · exact hb
                · exact absurd hb hretry
              exact retryDecision_eq_true t result htrue

/-- Unfolding equation for `executeWithRetry`. -/
theorem executeWithRetry_eq (w : World) (t : Test) (n sleepIdx : Nat) :
    executeWithRetry w t n sleepIdx =
      if t.retries + 1 ≤ 1 then
        { result := some (execute w t n).1, err := (execute w t n).2.1,
          next := (execute w t n).2.2, sleeps := [], attempts := [] }
      else retryLoop w t (t.retries + 1).toNat 0 n sleepIdx [] [] (none, none) := by
  rcases hex : execute w t n with ⟨result, err, n'⟩
  simp only [executeWithRetry, hex]

theorem executeWithRetry_attempts_ok (w : World) (t : Test) (n sleepIdx : Nat) :
    ∀ ev ∈ (executeWithRetry w t n sleepIdx).attempts, attemptRetryOk t ev := by
  intro ev hev
  rw [executeWithRetry_eq] at hev
  by_cases hm : t.retries + 1 ≤ 1
  · rw [if_pos hm] at hev
    simp at hev
  · rw [if_neg hm] at hev
    exact retryLoop_attempts_ok w t _ 0 n sleepIdx [] [] (none, none)
      (fun ev' hev' => absurd hev' (List.not_mem_nil ev')) ev hev

theorem retryLoop_result_shape (w : World) (t : Test) :
    ∀ (remaining attempt n sleepIdx : Nat) (sleeps : List Duration)
      (attempts : List AttemptEv) (last : Option TestResult × Option String),
      (∀ r, last.1 = some r → r.success = false ∧ r.failures = []) →
      ∀ r, (retryLoop w t remaining attempt n sleepIdx sleeps attempts last).result = some r →
        r.success = false ∧ r.failures = [] := by
  intro remaining
  induction remaining with
  | zero =>
    intro attempt n sleepIdx sleeps attempts last hlast r hr
    exact hlast r hr
  | succ rem ih =>
    intro attempt n sleepIdx sleeps attempts last hlast r hr
    rcases hex : execute w t n with ⟨result, err, n'⟩
    have hshape : result.success = false ∧ result.failures = [] := by
      have h0 := execute_result_shape w t n
      rw [hex] at h0
      exact h0
    unfold retryLoop at hr
    rw [hex] at hr
    simp only at hr
    by_cases hsucc : err = none ∧ result.success = true
    · rw [if_pos hsucc] at hr
      simp only at hr
      rw [Option.some_inj] at hr
      exact hr ▸ hshape
    · rw [if_neg hsucc] at hr
      by_cases hrem : rem = 0
      · rw [if_pos hrem] at hr
        simp only at hr
        rw [Option.some_inj] at hr
        exact hr ▸ hshape
      · rw [if_neg hrem] at hr
        by_cases hretry :
            (if t.retryOnStatus.length > 0 then shouldRetry result.statusCode t.retryOnStatus
             else if result.success = false then true else false) = false
        · rw [if_pos hretry] at hr
          simp only at hr
          rw [Option.some_inj] at hr
          exact hr ▸ hshape
        · rw [if_neg hretry] at hr
          by_cases hcan : w.cancelAtSleep sleepIdx = true
          · rw [if_pos hcan] at hr
            simp only at hr
            rw [Option.some_inj] at hr
            exact hr ▸ hshape
          · rw [if_neg hcan] at hr
            refine ih (attempt + 1) n' (sleepIdx + 1) _ _ (some result, err) ?_ r hr
            intro r' hr'
            rw [Option.some_inj] at hr'
            exact hr' ▸ hshape

theorem executeWithRetry_result_shape (w : World) (t : Test) (n sleepIdx : Nat) :
    ∀ r, (executeWithRetry w t n sleepIdx).result = some r →
      r.success = false ∧ r.failures = [] := by
  intro r hr
  rw [executeWithRetry_eq] at hr
  by_cases hm : t.retries + 1 ≤ 1
  · rw [if_pos hm] at hr
    simp only at hr
    rw [Option.some_inj] at hr
    exact hr ▸ execute_result_shape w t n
  · rw [if_neg hm] at hr
    exact retryLoop_result_shape w t _ 0 n sleepIdx [] [] (none, none)
      (fun r' hr' => absurd hr' (by simp)) r hr

theorem runSeqLoop_invariant (w : World) :
    ∀ (tests : List Test) (cursor sleepIdx : Nat) (sleeps : List Duration)
      (validates : Nat) (acc : List TestResult) (s : SuiteResult),
      (∀ r ∈ acc, resultInvariant r) →
      (runSeqLoop w tests cursor sleepIdx sleeps validates acc).out = .ok s →
      suiteInvariant s := by
  intro tests
  induction tests with
  | nil =>
    intro cursor sleepIdx sleeps validates acc s hacc hout
    simp only [runSeqLoop] at hout
    rw [Except.ok.injEq] at hout
    exact hout ▸ collectStats_invariant acc hacc
  | cons t rest ih =>
    intro cursor sleepIdx sleeps validates acc s hacc hout
    simp only [runSeqLoop] at hout
    rcases herr : (executeWithRetry w t cursor sleepIdx).err with _ | e
    · rw [herr] at hout
      simp only at hout
      rcases hres : (executeWithRetry w t cursor sleepIdx).result with _ | r
      · rw [hres] at hout
        simp only at hout
        exact absurd hout (by simp)
      · rw [hres] at hout
        simp only at hout
        have hshape := executeWithRetry_result_shape w t cursor sleepIdx r hres
        by_cases her2 : r.error = none
        · rw [if_pos her2] at hout
          simp only at hout
          refine ih _ _ _ _ _ s ?_ hout
          intro r' hr'
          rcases List.mem_append.mp hr' with hold | hnew
          · exact hacc r' hold
          · rw [List.mem_singleton] at hnew
            subst hnew
            simp [resultInvariant, her2, List.length_eq_zero]
        · rw [if_neg her2] at hout
          simp only at hout
          refine ih _ _ _ _ _ s ?_ hout
          intro r' hr'
          rcases List.mem_append.mp hr' with hold | hnew
          · exact hacc r' hold
          · rw [List.mem_singleton] at hnew
            subst hnew
            simp [resultInvariant, her2, hshape.1]
    · rw [herr] at hout
      simp only at hout
      exact absurd hout (by simp)

theorem workerProcess_invariant (w : World) (t : Test) (c si : Nat) :
    resultInvariant (workerProcess w t c si) := by
  unfold workerProcess
  rcases herr : (executeWithRetry w t c si).err with _ | e
  · rcases hres : (executeWithRetry w t c si).result with _ | r
    · simp [herr, hres, resultInvariant]
    · simp only [herr, hres]
      have hshape := executeWithRetry_result_shape w t c si r hres
      by_cases her2 : r.error = none
      · rw [if_pos her2]
        simp [resultInvariant, her2, List.length_eq_zero]
      · rw [if_neg her2]
        simp [resultInvariant, her2, hshape.1]
  · simp [herr, resultInvariant]

/-! ## Claim theorems -/

/-- C1: the claim says each retry attempt is an execution followed by
assertion evaluation and that a fully successful attempt returns
immediately with no further attempts and no backoff delay.  Evaluating the
code at the failing input (`Retries=1`, empty `RetryOnStatus`, no
assertions, every execution a clean HTTP 200): the run performs 2
executions and 1 backoff sleep even though the first attempt had no
transport error and no failing assertion, `engine.Validate` runs once for
the whole test (not once per attempt), and the result `ExecuteWithRetry`
returns still has `Success=false` — the early-return guard
`err == nil && result.Success` can never fire because `Execute` never sets
the success flag. -/
theorem c1_successful_attempt_is_retried :
    (runSeq wOk [tPlain]).execs = 2 ∧
    (runSeq wOk [tPlain]).sleeps = [second] ∧
    (runSeq wOk [tPlain]).validates = 1 ∧
    (executeWithRetry wOk tPlain 0 0).attempts.map
        (fun ev => (ev.err, ev.result.error, ev.result.statusCode, ev.result.success)) =
      [(none, none, 200, false), (none, none, 200, false)] ∧
    (executeWithRetry wOk tPlain 0 0).result.map (fun r => r.success) = some false := by
  refine ⟨by decide, by decide, by decide, by decide, ?_⟩
  rfl

/-- C2 counterexample: for the test with no request specification,
`Execute` returns a `nil` error and stores the config error inside the
`TestResult`; the run does not abort — `Run` returns a `SuiteResult` with
the test recorded as failed, refuting "delivered through the non-nil error
return / Run returns (nil, error)". -/
theorem c2_counterexample :
    (execute wOk tMissing 0).2.1 = none ∧
    (execute wOk tMissing 0).1.error = some "no request specification found" ∧
    (runSeq wOk [tMissing]).out.toOption.map (fun s => (s.totalTests, s.failedTests)) =
      some (1, 1) ∧
    (runSeq wOk [tMissing]).out.toOption.map (fun s => s.results.map (fun r => r.error)) =
      some [some "no request specification found"] := by
  refine ⟨by decide, by decide, ?_, ?_⟩ <;> rfl

/-- C2 amended: a missing request specification is recorded inside the
returned `TestResult` (`Error` set, `Success=false`) with a `nil` Go error
return and no execution consumed; the run therefore continues instead of
aborting. -/
theorem c2_amended_config_error_in_result :
    ∀ (w : World) (test : Test) (n : Nat), test.curl = "" → test.request = none →
      (execute w test n).2.1 = none ∧
      (execute w test n).1.error = some "no request specification found" ∧
      (execute w test n).1.success = false ∧
      (execute w test n).2.2 = n := by
  intro w test n h1 h2
  simp [execute, prepareRequest, h1, h2]

/-- C2 witness: the amended statement applied to the concrete
missing-specification test. -/
theorem c2_amended_witness :
    (execute wOk tMissing 0).2.1 = none ∧
    (execute wOk tMissing 0).1.error = some "no request specification found" ∧
    (execute wOk tMissing 0).1.success = false ∧
    (execute wOk tMissing 0).2.2 = 0 :=
  c2_amended_config_error_in_result wOk tMissing 0 rfl rfl

/-- C3 counterexample: a sequential run whose only test is cancelled
during its retry backoff sleep returns `(nil, context error)` — not a
partial `SuiteResult`. -/
theorem c3_counterexample :
    (runSeq wCancel [tPlain]).out = .error "context canceled" := rfl

/-- C3 amended: only the parallel path absorbs cancellation — a worker
converts a non-nil error return of `ExecuteWithRetry` into a `TestResult`
with the context error attached (`Success=false`, no failures), which ends
up inside the partial `SuiteResult`; the sequential `Run` instead aborts
with `(nil, error)` as soon as `ExecuteWithRetry` reports the context
error. -/
theorem c3_amended_cancellation_handling :
    (∀ (w : World) (t : Test) (c si : Nat) (e : String),
      (executeWithRetry w t c si).err = some e →
        (workerProcess w t c si).error = some e ∧
        (workerProcess w t c si).success = false ∧
        (workerProcess w t c si).failures = []) ∧
    (∀ (w : World) (t : Test) (rest : List Test) (e : String),
      (executeWithRetry w t 0 0).err = some e →
      (runSeq w (t :: rest)).out = .error e) := by
  constructor
  · intro w t c si e h
    simp [workerProcess, h]
  · intro w t rest e h
    simp [runSeq, runSeqLoop, h]

/-- C3 witness: the amended statement applied to the concrete cancelled
run. -/
theorem c3_amended_witness :
    ((workerProcess wCancel tPlain 0 0).error = some "context canceled" ∧
     (workerProcess wCancel tPlain 0 0).success = false ∧
     (workerProcess wCancel tPlain 0 0).failures = []) ∧
    (runSeq wCancel [tPlain]).out = .error "context canceled" :=
  ⟨c3_amended_cancellation_handling.1 wCancel tPlain 0 0 "context canceled" rfl,
   c3_amended_cancellation_handling.2 wCancel tPlain [] "context canceled" rfl⟩

/-- C4: a backoff sleep (i.e. a retry) after a non-final failed attempt
happens only if the attempt's status code is in `RetryOnStatus`, or
`RetryOnStatus` is empty and the attempt produced a transport error or
overall failure; with a non-empty `RetryOnStatus` an attempt whose status
code is not listed never sleeps; and the `RetryOnStatus=[500,502,503]`
scenario with executions 500, 500, 200 yields a final `Success=true`
result after exactly 2 backoff sleeps and 3 executions. -/
theorem c4_retry_eligibility :
    (∀ (w : World) (t : Test) (n sleepIdx : Nat),
      ∀ ev ∈ (executeWithRetry w t n sleepIdx).attempts, ev.slept = true →
        ev.result.statusCode ∈ t.retryOnStatus ∨
        (t.retryOnStatus = [] ∧
         (ev.err ≠ none ∨ ev.result.error ≠ none ∨ ev.result.success = false))) ∧
    (∀ (w : World) (t : Test) (n sleepIdx : Nat), t.retryOnStatus ≠ [] →
      ∀ ev ∈ (executeWithRetry w t n sleepIdx).attempts,
        ev.result.statusCode ∉ t.retryOnStatus → ev.slept = false) ∧
    (runSeq wScen [tScen]).sleeps.length = 2 ∧
    (runSeq wScen [tScen]).execs = 3 ∧
    (runSeq wScen [tScen]).out.toOption.map (fun s => s.results.map (fun r => r.success)) =
      some [true] := by
  refine ⟨?_, ?_, by decide, by decide, ?_⟩
  · intro w t n sleepIdx ev hev hs
    rcases executeWithRetry_attempts_ok w t n sleepIdx ev hev hs with hmem | ⟨he, hsu⟩
    · exact Or.inl hmem
    · exact Or.inr ⟨he, Or.inr (Or.inr hsu)⟩
  · intro w t n sleepIdx hne ev hev hnotmem
    rcases Bool.eq_false_or_eq_true ev.slept with hb | hb
    · rcases executeWithRetry_attempts_ok w t n sleepIdx ev hev hb with hmem | ⟨he, _⟩
      · exact absurd hmem hnotmem
      · exact absurd he hne
    · exact hb
  · rfl

/-- C4 witness: the first attempt of the concrete scenario slept, and its
status code 500 is in the configured retry list. -/
theorem c4_witness :
    ((executeWithRetry wScen tScen 0 0).attempts.getD 0 default).result.statusCode ∈
      tScen.retryOnStatus ∨
    (tScen.retryOnStatus = [] ∧
     (((executeWithRetry wScen tScen 0 0).attempts.getD 0 default).err ≠ none ∨
      ((executeWithRetry wScen tScen 0 0).attempts.getD 0 default).result.error ≠ none ∨
      ((executeWithRetry wScen tScen 0 0).attempts.getD 0 default).result.success = false)) :=
  c4_retry_eligibility.1 wScen tScen 0 0 _ (by decide) (by decide)

/-- `toInt64` is the identity on the 64-bit range. -/
theorem toInt64_eq_self (n : Int) (h1 : minInt64 ≤ n) (h2 : n ≤ maxInt64) :
    toInt64 n = n := by
  simp only [toInt64]
  unfold minInt64 at h1
  unfold maxInt64 at h2
  split <;> omega

/-- C5 counterexample: the claim's formula `initialDelay * 2^attempt` fails
on the code because the 64-bit arithmetic wraps: at `attempt = 34` with a
1-second delay the product overflows int64 and the computed delay is
negative, and at `attempt = 64` the shifted multiplier is zero, so the
delay is zero — not `1s * 2^34` resp. `1s * 2^64`. -/
theorem c5_counterexample :
    calculateDelay 34 second "exponential" = -1266874889709551616 ∧
    second * 2 ^ 34 = 17179869184000000000 ∧
    ¬ calculateDelay 34 second "exponential" = second * 2 ^ 34 ∧
    calculateDelay 64 second "exponential" = 0 ∧
    ¬ calculateDelay 64 second "exponential" = second * 2 ^ 64 := by
  refine ⟨by decide, by decide, by decide, by decide, by decide⟩

/-- C5 amended: whenever the computation stays inside the 64-bit range —
`attempt ≤ 62` so the shifted multiplier does not wrap, and the product of
the (defaulted) delay with the multiplier within int64 bounds —
`calculateDelay` equals `initialDelay * 2^attempt` for "exponential" and
for any unknown or empty backoff type, and `initialDelay * (attempt+1)`
for "linear" (under the analogous in-range provisos), with a zero
`initialDelay` replaced by one second; the linear delays for attempts
0, 1, 2 at 1s are 1s, 2s, 3s. -/
theorem c5_amended_delay_formula_in_range :
    (∀ (a : Nat) (d : Duration) (bt : String), ¬ bt = "linear" →
      a ≤ 62 →
      minInt64 ≤ (if d = 0 then second else d) * 2 ^ a →
      (if d = 0 then second else d) * 2 ^ a ≤ maxInt64 →
      calculateDelay a d bt = (if d = 0 then second else d) * 2 ^ a) ∧
    (∀ (a : Nat) (d : Duration),
      (a : Int) + 1 ≤ maxInt64 →
      minInt64 ≤ (if d = 0 then second else d) * ((a : Int) + 1) →
      (if d = 0 then second else d) * ((a : Int) + 1) ≤ maxInt64 →
      calculateDelay a d "linear" = (if d = 0 then second else d) * ((a : Int) + 1)) ∧
    calculateDelay 0 second "linear" = second ∧
    calculateDelay 1 second "linear" = 2 * second ∧
    calculateDelay 2 second "linear" = 3 * second := by
  refine ⟨?_, ?_, by decide, by decide, by decide⟩
  · intro a d bt hbt ha hlo hhi
    have hmul : toInt64 (2 ^ a) = 2 ^ a := by
      refine toInt64_eq_self _ ?_ ?_
      · exact le_trans (by norm_num [minInt64]) (pow_nonneg (by norm_num) a)
      · calc (2 : Int) ^ a ≤ 2 ^ 62 := pow_le_pow_right₀ (by norm_num) ha
          _ ≤ maxInt64 := by norm_num [maxInt64]
    unfold calculateDelay
    split
    · next hd =>
      rw [if_pos hd] at hlo hhi
      split
      · show wrapMul64 second (toInt64 (2 ^ a)) = second * 2 ^ a
        rw [hmul]
        exact toInt64_eq_self _ hlo hhi
      · exact absurd rfl hbt
      · show wrapMul64 second (toInt64 (2 ^ a)) = second * 2 ^ a
        rw [hmul]
        exact toInt64_eq_self _ hlo hhi
    · next hd =>
      rw [if_neg hd] at hlo hhi
      split
      · show wrapMul64 d (toInt64 (2 ^ a)) = d * 2 ^ a
        rw [hmul]
        exact toInt64_eq_self _ hlo hhi
      · exact absurd rfl hbt
      · show wrapMul64 d (toInt64 (2 ^ a)) = d * 2 ^ a
        rw [hmul]
        exact toInt64_eq_self _ hlo hhi
  · intro a d ha hlo hhi
    have hmul : toInt64 ((a : Int) + 1) = (a : Int) + 1 := by
      refine toInt64_eq_self _ ?_ ?_
      · have hnn : (0 : Int) ≤ (a : Int) + 1 := by positivity
        unfold minInt64
        omega
      · exact ha
    unfold calculateDelay
    split
    · next hd =>
      rw [if_pos hd] at hlo hhi
      show wrapMul64 second (toInt64 ((a : Int) + 1)) = second * ((a : Int) + 1)
      rw [hmul]
      exact toInt64_eq_self _ hlo hhi
    · next hd =>
      rw [if_neg hd] at hlo hhi
      show wrapMul64 d (toInt64 ((a : Int) + 1)) = d * ((a : Int) + 1)
      rw [hmul]
      exact toInt64_eq_self _ hlo hhi

/-- C5 witness: the amended formulas applied at attempt 2 with a 1-second
delay, with every in-range proviso discharged. -/
theorem c5_amended_witness :
    calculateDelay 2 second "exponential" = (if second = 0 then second else second) * 2 ^ 2 ∧
    calculateDelay 2 second "linear" =
      (if second = 0 then second else second) * ((2 : Int) + 1) :=
  ⟨c5_amended_delay_formula_in_range.1 2 second "exponential" (by decide) (by decide)
     (by decide) (by decide),
   c5_amended_delay_formula_in_range.2.1 2 second (by decide) (by decide) (by decide)⟩

/-- C6: every `SuiteResult` either runner returns satisfies
`TotalTests = len(Results)` and `Passed + Failed = Total`, and every
contained result satisfies `Success ↔ (no failures ∧ no error)`. -/
theorem c6_suite_invariants :
    (∀ (w : World) (suite : List Test) (s : SuiteResult),
      (runSeq w suite).out = .ok s → suiteInvariant s) ∧
    (∀ rs : List TestResult,
      (∀ r ∈ rs, ∃ (w : World) (t : Test) (c si : Nat), r = workerProcess w t c si) →
      suiteInvariant (runParallelFinalize rs)) := by
  constructor
  · intro w suite s hout
    exact runSeqLoop_invariant w suite 0 0 [] 0 [] s (by simp) hout
  · intro rs h
    refine collectStats_invariant rs ?_
    intro r hr
    obtain ⟨w, t, c, si, rfl⟩ := h r hr
    exact workerProcess_invariant w t c si

/-- C6 witness: both parts applied to concrete runs. -/
theorem c6_witness :
    suiteInvariant ((runSeq wOk [tPlain]).out.toOption.getD (collectStats [])) ∧
    suiteInvariant (runParallelFinalize [workerProcess wOk tPlain 0 0]) :=
  ⟨c6_suite_invariants.1 wOk [tPlain] _ rfl,
   c6_suite_invariants.2 [workerProcess wOk tPlain 0 0]
     (fun r hr => ⟨wOk, tPlain, 0, 0, by rw [List.mem_singleton] at hr; exact hr⟩)⟩

/-- C7 counterexample: for an expression in which `||` occurs before `&&`,
the code splits on `&&` (checked first), not on the first kind of
connective seen in scan order: at status 404 the code evaluates
`">= 500 || >= 200 && < 300"` to false while the scan-order reading
evaluates it to true. -/
theorem c7_counterexample :
    evaluateExpression ">= 500 || >= 200 && < 300" 404 = false ∧
    evaluateExpressionSpec ">= 500 || >= 200 && < 300" 404 = true := ⟨rfl, rfl⟩

/-- C7 amended: the value is split on `&&` whenever `&&` is present and
otherwise on `||`; for expressions that do not contain both kinds of
connective this coincides with splitting on the first kind seen in scan
order, each side evaluated independently; and the claim's concrete
examples hold: 201 satisfies `">= 200 && < 300"`, 404 produces exactly one
failure whose message contains "does not satisfy expression". -/
theorem c7_amended_split_on_and_first :
    (∀ (e : String) (s : Int),
      ¬ (containsSub (statusSubst e s) "&&" = true ∧
         containsSub (statusSubst e s) "||" = true) →
      evaluateExpression e s = evaluateExpressionSpec e s) ∧
    statusValidate { test := {}, statusCode := 201 } ⟨"status", ">= 200 && < 300"⟩ = none ∧
    statusValidate { test := {}, statusCode := 404 } ⟨"status", ">= 200 && < 300"⟩ =
      some { type := "status", expected := ">= 200 && < 300", actual := "404",
             message := "status 404 does not satisfy expression: >= 200 && < 300" } ∧
    containsSub "status 404 does not satisfy expression: >= 200 && < 300"
      "does not satisfy expression" = true := by
  refine ⟨?_, by decide, by decide, by decide⟩
  intro e s h
  unfold evaluateExpression evaluateExpressionSpec
  by_cases h1 : containsSub (statusSubst e s) "&&" = true
  · have h2 : containsSub (statusSubst e s) "||" = false := by
      rcases Bool.eq_false_or_eq_true (containsSub (statusSubst e s) "||") with hb | hb
      · exact absurd ⟨h1, hb⟩ h
      · exact hb
    simp [h1, h2]
  · rw [Bool.not_eq_true] at h1
    by_cases h2 : containsSub (statusSubst e s) "||" = true
    · simp [h1, h2]
    · rw [Bool.not_eq_true] at h2
      simp [h1, h2]

/-- C7 witness: the amended equality applied to the claim's compound
expression, which contains only `&&`. -/
theorem c7_witness :
    evaluateExpression ">= 200 && < 300" 201 =
      evaluateExpressionSpec ">= 200 && < 300" 201 :=
  c7_amended_split_on_and_first.1 ">= 200 && < 300" 201 (by decide)

/-- C8: the JSON path validator checks path existence before value
comparison — a missing path yields the distinct "not found" failure and an
existing path (including one bound to JSON null) always proceeds to the
typed comparison; on `{"value": null}` the assertion `.value == null`
passes and `.value != null` produces exactly one failure. -/
theorem c8_jsonpath_existence_first :
    (∀ (result : TestResult) (a : Assertion) (path op v : String),
      jpParseExpression (trimSpace a.value) = some (path, op, v) →
      gjsonGet result.responseBody (trimLeadingDot path) = none →
      jsonPathValidate result a = some (jpNotFoundFailure (trimLeadingDot path))) ∧
    (∀ (result : TestResult) (a : Assertion) (path op v : String) (j : Json),
      jpParseExpression (trimSpace a.value) = some (path, op, v) →
      gjsonGet result.responseBody (trimLeadingDot path) = some j →
      jsonPathValidate result a =
        (if jpEvaluateCondition j op v then none
         else some (jpMismatchFailure (trimLeadingDot path) op v j))) ∧
    gjsonGet nullBody "value" = some Json.null ∧
    jsonPathValidate nullBodyResult ⟨"json_path", ".value == null"⟩ = none ∧
    jsonPathValidate nullBodyResult ⟨"json_path", ".value != null"⟩ =
      some (jpMismatchFailure "value" "!=" "null" Json.null) ∧
    engineValidate nullBodyResult [⟨"json_path", ".value != null"⟩] =
      [jpMismatchFailure "value" "!=" "null" Json.null] := by
  refine ⟨?_, ?_, rfl, rfl, rfl, rfl⟩
  · intro result a path op v hparse hget
    simp only [jsonPathValidate, hparse, hget]
  · intro result a path op v j hparse hget
    simp only [jsonPathValidate, hparse, hget]

/-- C8 witness: the missing-path half applied to a concrete body without
the requested path. -/
theorem c8_witness :
    jsonPathValidate { test := {}, responseBody := "\x7b\x7d" }
      ⟨"json_path", ".missing == 1"⟩ = some (jpNotFoundFailure "missing") :=
  c8_jsonpath_existence_first.1 { test := {}, responseBody := "\x7b\x7d" }
    ⟨"json_path", ".missing == 1"⟩ ".missing" "==" "1" rfl rfl

/-- C9: `Engine.Validate` distributes over the assertion list (failures
appear in input order and every assertion is evaluated), a single
assertion contributes exactly its validator's failure, and an unregistered
type yields the "unsupported assertion type" failure entry instead of an
error. -/
theorem c9_engine_validate_order :
    (∀ (result : TestResult) (xs ys : List Assertion),
      engineValidate result (xs ++ ys) =
        engineValidate result xs ++ engineValidate result ys) ∧
    (∀ (result : TestResult) (a : Assertion),
      engineValidate result [a] =
        (match lookupValidator a.type with
         | some validator => (validator result a).toList
         | none => [{ type := a.type, message := "unsupported assertion type: " ++ a.type }])) ∧
    (∀ (result : TestResult) (a : Assertion), a.type ∉ registeredTypes →
      engineValidate result [a] =
        [{ type := a.type, message := "unsupported assertion type: " ++ a.type }]) := by
  refine ⟨?_, ?_, ?_⟩
  · intro result xs ys
    induction xs with
    | nil => rfl
    | cons a rest ih => simp [engineValidate, ih]
  · intro result a
    cases h : lookupValidator a.type with
    | none => simp [engineValidate, h]
    | some v =>
      cases hv : v result a with
      | none => simp [engineValidate, h, hv, Option.toList]
      | some f => simp [engineValidate, h, hv, Option.toList]
  · intro result a h
    have hl : lookupValidator a.type = none := by
      simp only [registeredTypes, List.mem_cons, List.mem_singleton, not_or] at h
      obtain ⟨h1, h2, h3, h4, h5, h6⟩ := h
      unfold lookupValidator
      split <;> first | rfl | (exfalso; simp_all)
    simp [engineValidate, hl]

/-- C9 witness: an unregistered assertion type mapped to its failure
entry, and distribution at a concrete split. -/
theorem c9_witness :
    engineValidate { test := {} } [⟨"frobnicate", "x"⟩] =
      [{ type := "frobnicate", message := "unsupported assertion type: frobnicate" }] :=
  c9_engine_validate_order.2.2 { test := {} } ⟨"frobnicate", "x"⟩ (by decide)

/-- C10: a header whose every case-insensitive match has an empty value
list or an empty first value is looked up as the empty string, and the
validator then reports exactly the "header not found" failure
(`Actual = "header not found"`) for every parsed operator, never a value
comparison; concretely so for a present `X-Foo` header with empty first
value. -/
theorem c10_empty_header_not_found :
    (∀ (hs : List (String × List String)) (name : String),
      (∀ kv ∈ hs, eqFold kv.1 name = true → kv.2 = [] ∨ ∃ vs, kv.2 = "" :: vs) →
      getHeader hs name = "") ∧
    (∀ (result : TestResult) (a : Assertion) (name op v : String),
      hdrParseExpression (trimSpace a.value) = some (name, op, v) →
      getHeader result.headers name = "" →
      headerValidate result a = some (hdrNotFoundFailure name)) ∧
    (∀ name : String, (hdrNotFoundFailure name).actual = "header not found") ∧
    headerValidate emptyHdrResult ⟨"header", "X-Foo == 'bar'"⟩ =
      some (hdrNotFoundFailure "X-Foo") := by
  refine ⟨?_, ?_, fun _ => rfl, by decide⟩
  · intro hs name
    induction hs with
    | nil => intro _; rfl
    | cons kv rest ih =>
      intro h
      obtain ⟨k, vs⟩ := kv
      by_cases he : eqFold k name = true
      · have hv := h (k, vs) (by simp) he
        rcases hv with h0 | ⟨vs', h0⟩
        · subst h0
          simp only [getHeader, he, if_true]
          exact ih (fun kv hkv hef => h kv (List.mem_cons_of_mem _ hkv) hef)
        · subst h0
          simp [getHeader, he]
      · simp only [getHeader, he, if_false]
        exact ih (fun kv hkv hef => h kv (List.mem_cons_of_mem _ hkv) hef)
  · intro result a name op v hparse hget
    simp [headerValidate, hparse, hget]

/-- C10 witness: both halves applied to the concrete header list whose
only `X-Foo` entry has an empty first value. -/
theorem c10_witness :
    getHeader [("X-Foo", [""])] "X-Foo" = "" ∧
    headerValidate emptyHdrResult ⟨"header", "X-Foo == 'bar'"⟩ =
      some (hdrNotFoundFailure "X-Foo") :=
  ⟨c10_empty_header_not_found.1 [("X-Foo", [""])] "X-Foo"
     (fun kv hkv _ => by
       rw [List.mem_singleton] at hkv
       rw [hkv]
       exact Or.inr ⟨[], rfl⟩),
   c10_empty_header_not_found.2.1 emptyHdrResult ⟨"header", "X-Foo == 'bar'"⟩
     "X-Foo" "==" "bar" rfl rfl⟩

end Curlex
